import Mathlib

/-!
Shallow embedding of the engineering-metrics-dashboard core
(`metrics_dashboard/dora.py`, `backfill.py`, `tasks.py`, `clients.py`,
`database/repository.py`).

Timestamps are modelled as whole seconds since 1970-01-01T00:00:00 UTC
(`Int`); the source normalizes `microsecond=0` before any arithmetic, and
all comparisons/`timedelta` arithmetic on aware UTC datetimes coincide with
integer-second arithmetic.  Python `float` quantities produced by division
are modelled as exact rationals (`ℚ`).
-/

namespace MetricsDashboard

/-- `DoraRating` enum from `models.py`. -/
inductive DoraRating where
  | elite
  | high
  | medium
  | low
deriving DecidableEq, Repr

/-- `MetricsPeriod` from `models.py`: a period type plus inclusive start/end
timestamps (seconds since epoch). -/
structure MetricsPeriod where
  ptype : String
  start_date : Int
  end_date : Int
deriving DecidableEq, Repr

/-- `GitHubDeployment` from `models.py`. -/
structure GitHubDeployment where
  id : Nat
  sha : String
  ref : String
  environment : String
  created_at : Int
  status : String
deriving DecidableEq, Repr

/-- `GitHubPullRequest` from `models.py`. -/
structure GitHubPullRequest where
  number : Nat
  title : String
  created_at : Int
  merged_at : Option Int
  first_commit_at : Option Int
deriving DecidableEq, Repr

/-- `Incident` from `models.py`. -/
structure Incident where
  id : String
  name : String
  status : String
  severity : String
  created_at : Int
  resolved_at : Option Int
  impact_started_at : Option Int
  duration_seconds : Option ℚ
  time_to_resolve_hours : Option ℚ
  is_change_related : Bool
  is_user_impacting : Bool
deriving DecidableEq, Repr

/-- `DeploymentFrequency` metric block from `models.py`. -/
structure DeploymentFrequency where
  deployments_per_day : ℚ
  deployments_per_week : ℚ
  total_deployments : Nat
  rating : DoraRating
deriving DecidableEq, Repr

/-- `LeadTime` metric block from `models.py`. -/
structure LeadTime where
  average_hours : ℚ
  median_hours : ℚ
  p90_hours : ℚ
  rating : DoraRating
deriving DecidableEq, Repr

/-- `ChangeFailureRate` metric block from `models.py`. -/
structure ChangeFailureRate where
  percentage : ℚ
  failed_changes : Nat
  total_deployments : Nat
  rating : DoraRating
deriving DecidableEq, Repr

/-- `MTTR` metric block from `models.py`. -/
structure MTTR where
  average_hours : ℚ
  median_hours : ℚ
  incidents : Nat
  rating : DoraRating
deriving DecidableEq, Repr

/-- `statistics.median` (CPython): sort ascending; odd length takes the middle
element, even length averages the two middle elements. -/
def pymedian (xs : List ℚ) : ℚ :=
  let s := xs.insertionSort (· ≤ ·)
  let n := xs.length
  if n % 2 = 1 then s.getD (n / 2) 0
  else (s.getD (n / 2 - 1) 0 + s.getD (n / 2) 0) / 2

/-- `_get_deployment_frequency_rating` in `dora.py`. -/
def get_deployment_frequency_rating (per_day : ℚ) : DoraRating :=
  if per_day ≥ 1 then .elite
  else if per_day ≥ 1 / 7 then .high
  else if per_day ≥ 1 / 30 then .medium
  else .low

/-- `calculate_deployment_frequency` in `dora.py`.  `(end - start).days` of a
Python `timedelta` is floor division of its seconds by 86400, which is
`Int.ediv` for the positive divisor 86400. -/
def calculate_deployment_frequency (deployments : List GitHubDeployment)
    (period : MetricsPeriod) : DeploymentFrequency :=
  let successful := deployments.filter (fun d => d.status == "success")
  let total := successful.length
  let days : Int := max ((period.end_date - period.start_date).ediv 86400) 1
  let per_day : ℚ := (total : ℚ) / (days : ℚ)
  let per_week : ℚ := per_day * 7
  { deployments_per_day := per_day
    deployments_per_week := per_week
    total_deployments := total
    rating := get_deployment_frequency_rating per_day }

/-- `_get_lead_time_rating` in `dora.py`. -/
def get_lead_time_rating (median_hours : ℚ) : DoraRating :=
  if median_hours < 1 then .elite
  else if median_hours < 24 then .high
  else if median_hours < 168 then .medium
  else .low

/-- `calculate_lead_time` in `dora.py`.  The source builds `lead_times` by a
loop that `continue`s on unmerged PRs; that loop is `List.filterMap`.
`int(len * 0.9)` is modelled as `len * 9 / 10` (exact for every list length
reachable here). -/
def calculate_lead_time (pull_requests : List GitHubPullRequest) : LeadTime :=
  let lead_times : List ℚ := pull_requests.filterMap (fun pr =>
    match pr.merged_at with
    | none => none
    | some m =>
      let start_time := pr.first_commit_at.getD pr.created_at
      some (((m - start_time : Int) : ℚ) / 3600))
  if lead_times.isEmpty then
    { average_hours := 0, median_hours := 0, p90_hours := 0, rating := .low }
  else
    let sorted_times := lead_times.insertionSort (· ≤ ·)
    let avg := lead_times.sum / (lead_times.length : ℚ)
    let med := pymedian lead_times
    let p90_idx := sorted_times.length * 9 / 10
    let p90 := sorted_times.getD p90_idx med
    { average_hours := avg
      median_hours := med
      p90_hours := p90
      rating := get_lead_time_rating med }

/-- `_get_change_failure_rate_rating` in `dora.py`. -/
def get_change_failure_rate_rating (percentage : ℚ) : DoraRating :=
  if percentage ≤ 5 then .elite
  else if percentage ≤ 10 then .high
  else if percentage ≤ 15 then .medium
  else .low

/-- `calculate_change_failure_rate` in `dora.py`. -/
def calculate_change_failure_rate (deployments : List GitHubDeployment)
    (incidents : List Incident) : ChangeFailureRate :=
  let successful_deployments := (deployments.filter (fun d => d.status == "success")).length
  let total_deployments := successful_deployments
  if total_deployments = 0 then
    { percentage := 0, failed_changes := 0, total_deployments := 0, rating := .elite }
  else
    let failed_changes := incidents.length
    let percentage : ℚ := (failed_changes : ℚ) / (total_deployments : ℚ) * 100
    { percentage := percentage
      failed_changes := failed_changes
      total_deployments := total_deployments
      rating := get_change_failure_rate_rating percentage }

/-- `_get_mttr_rating` in `dora.py`. -/
def get_mttr_rating (median_hours : ℚ) : DoraRating :=
  if median_hours < 1 then .elite
  else if median_hours < 24 then .high
  else if median_hours < 168 then .medium
  else .low

/-- `calculate_mttr` in `dora.py`.  The source loop collecting non-`None`
`time_to_resolve_hours` is `List.filterMap`. -/
def calculate_mttr (incidents : List Incident) : MTTR :=
  let resolution_times : List ℚ := incidents.filterMap (fun inc => inc.time_to_resolve_hours)
  if resolution_times.isEmpty then
    { average_hours := 0, median_hours := 0, incidents := 0, rating := .elite }
  else
    let avg := resolution_times.sum / (resolution_times.length : ℚ)
    let med := pymedian resolution_times
    { average_hours := avg
      median_hours := med
      incidents := incidents.length
      rating := get_mttr_rating med }

/-- Durations used by the lead-time spec clause: merge time minus
(first-commit time if present, else creation time), in hours, over merged
PRs only. -/
def leadDurations (prs : List GitHubPullRequest) : List ℚ :=
  prs.filterMap (fun pr =>
    pr.merged_at.map (fun m =>
      ((m - pr.first_commit_at.getD pr.created_at : Int) : ℚ) / 3600))

/-! ### Period generation (`backfill.py`, `generate_periods`)

Python `//` and `%` on these timestamps are floor division/modulo with a
positive divisor, which coincides with `Int.ediv`/`Int.emod`. -/

/-- `datetime.replace(hour=0, minute=0, second=0, microsecond=0)` on an aware
UTC timestamp: floor to midnight. -/
def midnight (t : Int) : Int := (t.ediv 86400) * 86400

/-- `datetime.replace(hour=23, minute=59, second=59, microsecond=0)`: last
whole second of the timestamp's day. -/
def endOfDay (t : Int) : Int := midnight t + 86399

/-- Python `datetime.weekday()` (Monday = 0).  1970-01-01 was a Thursday,
weekday 3. -/
def weekday (t : Int) : Int := (t.ediv 86400 + 3).emod 7

/-- `current - timedelta(days=days_since_monday)` after flooring to midnight:
the Monday 00:00:00 on or before `t`'s day (lines 30-36 of `backfill.py`). -/
def mondayOnOrBefore (t : Int) : Int := midnight t - 86400 * weekday (midnight t)

/-- Gregorian leap-year test. -/
def isLeap (y : Nat) : Bool := y % 4 = 0 && (y % 100 ≠ 0 || y % 400 = 0)

/-- Length of a Gregorian year in days. -/
def daysInYear (y : Nat) : Nat := if isLeap y then 366 else 365

/-- Length of month `m` (1-12) of year `y` in days. -/
def daysInMonth (y m : Nat) : Nat :=
  if m = 2 then (if isLeap y then 29 else 28)
  else if m = 4 ∨ m = 6 ∨ m = 9 ∨ m = 11 then 30
  else 31

/-- Days from 1970-01-01 to January 1 of year `1970 + n`. -/
def daysToYear : Nat → Nat
  | 0 => 0
  | n + 1 => daysToYear n + daysInYear (1970 + n)

/-- Days from `y`-01-01 to the first of month `n + 1` of year `y`. -/
def daysToMonth (y : Nat) : Nat → Nat
  | 0 => 0
  | n + 1 => daysToMonth y n + daysInMonth y (n + 1)

/-- Midnight timestamp (seconds) of `y`-`m`-01, for `y ≥ 1970`. -/
def monthStart (y m : Nat) : Int :=
  ((daysToYear (y - 1970) + daysToMonth y (m - 1) : Nat) : Int) * 86400

/-- Split a day count (days since 1970-01-01) into a year and a day-of-year
remainder; fuel-driven, the caller passes enough fuel. -/
def yearSplit : Nat → Nat → Nat → Nat × Nat
  | 0, y, rem => (y, rem)
  | fuel + 1, y, rem =>
    if rem < daysInYear y then (y, rem)
    else yearSplit fuel (y + 1) (rem - daysInYear y)

/-- Split a day-of-year remainder into a month (1-12) and a day-of-month
remainder. -/
def monthSplit (y : Nat) : Nat → Nat → Nat → Nat × Nat
  | 0, m, rem => (m, rem)
  | fuel + 1, m, rem =>
    if rem < daysInMonth y m ∨ m = 12 then (m, rem)
    else monthSplit y fuel (m + 1) (rem - daysInMonth y m)

/-- Civil `(year, month, day)` of a day index (days since 1970-01-01). -/
def civilFromDays (days : Nat) : Nat × Nat × Nat :=
  let yr := yearSplit (days / 365 + 1) 1970 days
  let mr := monthSplit yr.1 12 1 yr.2
  (yr.1, mr.1, mr.2 + 1)

/-- `(year, month)` of the normalized start date: models
`current.replace(day=1)` in the monthly branch of `generate_periods`
(`current` is midnight of `start_date`'s day). -/
def startYM (start_date : Int) : Nat × Nat :=
  let c := civilFromDays ((midnight start_date).ediv 86400).toNat
  (c.1, c.2.1)

/-- The `if current.month == 12 ... else ...` step of the monthly branch. -/
def nextMonth (y m : Nat) : Nat × Nat :=
  if m = 12 then (y + 1, 1) else (y, m + 1)

/-- The weekly `while` loop of `generate_periods` (lines 38-47 of
`backfill.py`): `period_end = current + timedelta(days=6, hours=23,
minutes=59, seconds=59)` is `current + 604799`; the next start is
`current + 604800`.  Fuel-indexed; `generate_periods` passes enough fuel for
the loop to terminate by its own guards. -/
def weeklyLoop (e : Int) : Nat → Int → List MetricsPeriod
  | 0, _ => []
  | fuel + 1, current =>
    if current < e then
      if current + 604799 > e then []
      else ⟨"weekly", current, current + 604799⟩ :: weeklyLoop e fuel (current + 604800)
    else []

/-- The monthly `while` loop of `generate_periods` (lines 52-68).  The
source's loop variable is always midnight of the first day of a month; it is
represented by that month's `(y, m)` pair, with `monthStart y m` the
timestamp.  `period_end = next_month - timedelta(seconds=1)`. -/
def monthlyLoop (e : Int) : Nat → Nat → Nat → List MetricsPeriod
  | 0, _, _ => []
  | fuel + 1, y, m =>
    if monthStart y m < e then
      if monthStart (nextMonth y m).1 (nextMonth y m).2 - 1 > e then []
      else ⟨"monthly", monthStart y m, monthStart (nextMonth y m).1 (nextMonth y m).2 - 1⟩
        :: monthlyLoop e fuel (nextMonth y m).1 (nextMonth y m).2
  else []

/-- `generate_periods` in `backfill.py`.  Every month is at least 28 days =
2419200 s and every week is 604800 s, so the fuel passed to each loop
strictly exceeds the number of iterations the guards allow. -/
def generate_periods (start_date end_date : Int) (period_type : String) :
    List MetricsPeriod :=
  let e := endOfDay end_date
  if period_type = "weekly" then
    let aligned := mondayOnOrBefore start_date
    weeklyLoop e ((e - aligned).toNat / 604800 + 1) aligned
  else
    let ym := startYM start_date
    monthlyLoop e ((e - monthStart ym.1 ym.2).toNat / 2419200 + 1) ym.1 ym.2


/-! ### Upsert store (`database/repository.py`)

Each `upsert_*` method loops over the candidate dicts and executes one
`INSERT ... ON CONFLICT (key) DO UPDATE SET <mutable fields> = excluded.*`
per candidate.  The table is modelled as an insertion-ordered list of rows;
a statement whose key conflicts with an existing row overwrites exactly the
`set_` fields of that row, otherwise a fresh row is appended.  The
`fetched_at = datetime.utcnow()` bookkeeping column is modelled by an
explicit `now` parameter. -/

section UpsertEngine

variable {Row Cand K M I : Type} [DecidableEq K]

/-- One `INSERT ... ON CONFLICT DO UPDATE` statement: patch the conflicting
row in place, or append a freshly built row. -/
def upsertOne (key : Row → K) (ckey : Cand → K) (patch : Row → Cand → Row)
    (mk : Cand → Row) (store : List Row) (c : Cand) : List Row :=
  if ∃ r ∈ store, key r = ckey c then
    store.map (fun r => if key r = ckey c then patch r c else r)
  else store ++ [mk c]

/-- The per-candidate loop of an `upsert_*` method. -/
def upsertAll (key : Row → K) (ckey : Cand → K) (patch : Row → Cand → Row)
    (mk : Cand → Row) (store : List Row) (cs : List Cand) : List Row :=
  cs.foldl (upsertOne key ckey patch mk) store

/-- The last candidate in `cs` carrying key `k`, if any (the one whose
values the final conflict-update leaves in the store). -/
def lastCand (ckey : Cand → K) : List Cand → K → Option Cand
  | [], _ => none
  | c :: cs, k =>
    match lastCand ckey cs k with
    | some c' => some c'
    | none => if ckey c = k then some c else none

end UpsertEngine

/-- `deployments` table row (`database/models.py`, fields written by
`upsert_deployments`). -/
structure DeploymentRecord where
  github_deployment_id : Nat
  sha : String
  ref : String
  environment : String
  status : String
  created_at : Int
  fetched_at : Int
deriving DecidableEq, Repr

/-- Row built by the `insert(...).values(...)` of `upsert_deployments`. -/
def deploymentRowOf (now : Int) (d : GitHubDeployment) : DeploymentRecord :=
  { github_deployment_id := d.id, sha := d.sha, ref := d.ref,
    environment := d.environment, status := d.status,
    created_at := d.created_at, fetched_at := now }

/-- `ON CONFLICT (github_deployment_id) DO UPDATE SET status, fetched_at`. -/
def deploymentPatch (now : Int) (r : DeploymentRecord) (d : GitHubDeployment) :
    DeploymentRecord :=
  { r with status := d.status, fetched_at := now }

/-- `DataRepository.upsert_deployments` (state transition of the table). -/
def upsert_deployments (now : Int) (store : List DeploymentRecord)
    (deployments : List GitHubDeployment) : List DeploymentRecord :=
  upsertAll (fun r => r.github_deployment_id) (fun d => d.id)
    (deploymentPatch now) (deploymentRowOf now) store deployments

/-- `pull_requests` table row (fields written by `upsert_pull_requests`). -/
structure PullRequestRecord where
  github_pr_number : Nat
  title : String
  created_at : Int
  merged_at : Option Int
  first_commit_at : Option Int
  fetched_at : Int
deriving DecidableEq, Repr

/-- Row built by the `insert(...).values(...)` of `upsert_pull_requests`. -/
def pullRequestRowOf (now : Int) (pr : GitHubPullRequest) : PullRequestRecord :=
  { github_pr_number := pr.number, title := pr.title,
    created_at := pr.created_at, merged_at := pr.merged_at,
    first_commit_at := pr.first_commit_at, fetched_at := now }

/-- `ON CONFLICT (github_pr_number) DO UPDATE SET title, merged_at,
first_commit_at, fetched_at`. -/
def pullRequestPatch (now : Int) (r : PullRequestRecord)
    (pr : GitHubPullRequest) : PullRequestRecord :=
  { r with
    title := pr.title
    merged_at := pr.merged_at
    first_commit_at := pr.first_commit_at
    fetched_at := now }

/-- `DataRepository.upsert_pull_requests` (state transition of the table). -/
def upsert_pull_requests (now : Int) (store : List PullRequestRecord)
    (pull_requests : List GitHubPullRequest) : List PullRequestRecord :=
  upsertAll (fun r => r.github_pr_number) (fun pr => pr.number)
    (pullRequestPatch now) (pullRequestRowOf now) store pull_requests

/-- `incidents` table row (fields written by `upsert_incidents`). -/
structure IncidentRecord where
  incident_io_id : String
  name : String
  status : String
  severity : String
  created_at : Int
  resolved_at : Option Int
  impact_started_at : Option Int
  duration_seconds : Option ℚ
  time_to_resolve_hours : Option ℚ
  is_change_related : Bool
  is_user_impacting : Bool
  fetched_at : Int
deriving DecidableEq, Repr

/-- Row built by the `insert(...).values(...)` of `upsert_incidents`. -/
def incidentRowOf (now : Int) (inc : Incident) : IncidentRecord :=
  { incident_io_id := inc.id, name := inc.name, status := inc.status,
    severity := inc.severity, created_at := inc.created_at,
    resolved_at := inc.resolved_at, impact_started_at := inc.impact_started_at,
    duration_seconds := inc.duration_seconds,
    time_to_resolve_hours := inc.time_to_resolve_hours,
    is_change_related := inc.is_change_related,
    is_user_impacting := inc.is_user_impacting, fetched_at := now }

/-- `ON CONFLICT (incident_io_id) DO UPDATE SET` every field except the id
and `created_at`. -/
def incidentPatch (now : Int) (r : IncidentRecord) (inc : Incident) :
    IncidentRecord :=
  { r with
    name := inc.name
    status := inc.status
    severity := inc.severity
    resolved_at := inc.resolved_at
    impact_started_at := inc.impact_started_at
    duration_seconds := inc.duration_seconds
    time_to_resolve_hours := inc.time_to_resolve_hours
    is_change_related := inc.is_change_related
    is_user_impacting := inc.is_user_impacting
    fetched_at := now }

/-- `DataRepository.upsert_incidents` (state transition of the table). -/
def upsert_incidents (now : Int) (store : List IncidentRecord)
    (incidents : List Incident) : List IncidentRecord :=
  upsertAll (fun r => r.incident_io_id) (fun inc => inc.id)
    (incidentPatch now) (incidentRowOf now) store incidents

/-! ### Source fetching (`clients.py`)

The per-item processing loops of `GitHubClient.get_deployments` and
`GitHubClient.get_pull_requests` over one response page.  The secondary
per-item HTTP lookups are abstracted as `Except`-valued functions (an
`.error` models an exception raised by the HTTP call). -/

/-- Raw deployment list item (the fields `get_deployments` reads). -/
structure RawDeployment where
  id : Nat
  sha : String
  ref : String
  environment : String
  created_at : Int
deriving DecidableEq, Repr

/-- Status derivation from the statuses response (lines 99-107 of
`clients.py`): the first entry's `state` is bucketed, an empty response
leaves the default `"pending"`. -/
def statusOf (statuses : List String) : String :=
  match statuses with
  | [] => "pending"
  | state :: _ =>
    if state = "success" then "success"
    else if state = "failure" ∨ state = "error" then "failure"
    else if state = "in_progress" ∨ state = "queued" then "in_progress"
    else "pending"

/-- The per-item loop of `get_deployments` over one page (lines 80-118 of
`clients.py`): an item created before the period `break`s the loop, an item
created after the period is skipped, and otherwise the deployment's latest
status is looked up — that lookup is NOT wrapped in `try/except`, so a
failure propagates out of the whole call. -/
def processDeploymentsPage (period : MetricsPeriod)
    (status_lookup : Nat → Except String (List String)) :
    List RawDeployment → Except String (List GitHubDeployment)
  | [] => .ok []
  | dep :: rest =>
    if dep.created_at < period.start_date then .ok []
    else if dep.created_at > period.end_date then
      processDeploymentsPage period status_lookup rest
    else
      match status_lookup dep.id with
      | .error e => .error e
      | .ok statuses =>
        match processDeploymentsPage period status_lookup rest with
        | .error e => .error e
        | .ok deps =>
          .ok (⟨dep.id, dep.sha, dep.ref, dep.environment, dep.created_at,
            statusOf statuses⟩ :: deps)

/-- Raw pull-request list item (the fields `get_pull_requests` reads). -/
structure RawPullRequest where
  number : Nat
  title : String
  created_at : Int
  merged_at : Option Int
deriving DecidableEq, Repr

/-- The per-item loop of `get_pull_requests` over one page (lines 154-199 of
`clients.py`): unmerged PRs and PRs merged outside the period are skipped;
the first-commit lookup IS wrapped in `try/except`, so a failure degrades
that single PR's `first_commit_at` to `None` and the loop continues. -/
def processPullRequestsPage (period : MetricsPeriod)
    (commits_lookup : Nat → Except String (Option Int)) :
    List RawPullRequest → List GitHubPullRequest
  | [] => []
  | pr :: rest =>
    match pr.merged_at with
    | none => processPullRequestsPage period commits_lookup rest
    | some merged =>
      if merged < period.start_date ∨ merged > period.end_date then
        processPullRequestsPage period commits_lookup rest
      else
        ⟨pr.number, pr.title, pr.created_at, some merged,
          match commits_lookup pr.number with
          | .ok v => v
          | .error _ => none⟩
          :: processPullRequestsPage period commits_lookup rest

/-- The merged-in-period filter of `get_pull_requests` (which raw items the
loop keeps, independent of the enrichment lookup). -/
def keptPullRequests (period : MetricsPeriod) (items : List RawPullRequest) :
    List RawPullRequest :=
  items.filter (fun pr =>
    match pr.merged_at with
    | none => false
    | some merged =>
      decide (¬(merged < period.start_date ∨ merged > period.end_date)))

/-! ### Backfill orchestrators (`backfill.py` / `tasks.py`)

`backfill_period` performs I/O (fetch + persist) and is abstracted as a
`process` function returning its summary counts or the exception it raised. -/

/-- The summary counts a successful `backfill_period` returns. -/
structure BackfillCounts where
  deployments : Nat
  pull_requests : Nat
  incidents : Nat
  snapshot_id : Nat
deriving DecidableEq, Repr

deriving instance DecidableEq for Except

/-- One entry of a backfill result list: a period's summary or the error
recorded for it, plus the `"progress": "i/total"` pair. -/
structure BackfillEntry where
  period_start : Int
  period_end : Int
  outcome : Except String BackfillCounts
  progress : Nat × Nat
deriving DecidableEq, Repr

/-- The summary dict `run_backfill_pipeline` returns. -/
structure BackfillSummary where
  total_periods : Nat
  successful : Nat
  failed : Nat
  results : List BackfillEntry
deriving DecidableEq, Repr

/-- The per-period loop of `run_backfill_pipeline` in `tasks.py` (lines
416-438): each `backfill_period` call is wrapped in `try/except`, so an
error is recorded against that period's entry and the loop continues with
the next period. -/
def backfillPipelineResults (process : MetricsPeriod → Except String BackfillCounts)
    (total : Nat) : List MetricsPeriod → Nat → List BackfillEntry
  | [], _ => []
  | p :: rest, i =>
    { period_start := p.start_date
      period_end := p.end_date
      outcome := process p
      progress := (i + 1, total) }
      :: backfillPipelineResults process total rest (i + 1)

/-- `run_backfill_pipeline` in `tasks.py` (lines 377-454). -/
def run_backfill_pipeline (start_date end_date : Int) (period_type : String)
    (process : MetricsPeriod → Except String BackfillCounts) : BackfillSummary :=
  let periods := generate_periods start_date end_date period_type
  let results := backfillPipelineResults process periods.length periods 0
  { total_periods := periods.length
    successful := (results.filter (fun r => r.outcome.isOk)).length
    failed := (results.filter (fun r => !r.outcome.isOk)).length
    results := results }

/-- The yield sequence of the `run_backfill` async generator in
`backfill.py` (lines 151-177): `backfill_period` is NOT wrapped in
`try/except`, so a period's exception propagates out of the generator;
the value is the full yielded list, or the first error raised. -/
def runBackfillYields (process : MetricsPeriod → Except String BackfillCounts)
    (total : Nat) : List MetricsPeriod → Nat → Except String (List BackfillEntry)
  | [], _ => .ok []
  | p :: rest, i =>
    match process p with
    | .error e => .error e
    | .ok counts =>
      match runBackfillYields process total rest (i + 1) with
      | .error e => .error e
      | .ok others =>
        .ok ({ period_start := p.start_date
               period_end := p.end_date
               outcome := .ok counts
               progress := (i + 1, total) } :: others)

/-- `run_backfill` in `backfill.py`. -/
def run_backfill (start_date end_date : Int) (period_type : String)
    (process : MetricsPeriod → Except String BackfillCounts) :
    Except String (List BackfillEntry) :=
  let periods := generate_periods start_date end_date period_type
  runBackfillYields process periods.length periods 0

theorem leadDurations_spec (prs : List GitHubPullRequest) :
    prs.filterMap (fun pr =>
      match pr.merged_at with
      | none => none
      | some m =>
        some (((m - pr.first_commit_at.getD pr.created_at : Int) : ℚ) / 3600))
      = leadDurations prs := by
  unfold leadDurations
  congr 1
  funext pr
  cases pr.merged_at <;> rfl

/-- C7: `calculate_lead_time` uses only merged PRs, with duration
merge − (first-commit or creation) in hours; average is the arithmetic mean,
median is the statistical median, p90 is the element at index
`floor(0.9 * n)` of the ascending-sorted durations; no merged PR means
all-zero metrics and rating LOW. -/
theorem C7_lead_time (prs : List GitHubPullRequest) :
    (leadDurations prs = [] →
      calculate_lead_time prs = ⟨0, 0, 0, .low⟩) ∧
    (leadDurations prs ≠ [] →
      (calculate_lead_time prs).average_hours
          = (leadDurations prs).sum / ((leadDurations prs).length : ℚ) ∧
      (calculate_lead_time prs).median_hours = pymedian (leadDurations prs) ∧
      (calculate_lead_time prs).p90_hours
          = ((leadDurations prs).insertionSort (· ≤ ·)).getD
              ((leadDurations prs).length * 9 / 10) 0) := by
  unfold calculate_lead_time
  rw [leadDurations_spec]
  constructor
  · intro h
    simp [h]
  · intro h
    have hne : (leadDurations prs).isEmpty = false := by
      simpa [List.isEmpty_iff] using h
    have hlen : 0 < (leadDurations prs).length := List.length_pos.mpr h
    have hsortlen : ((leadDurations prs).insertionSort (· ≤ ·)).length
        = (leadDurations prs).length := List.length_insertionSort _ _
    have hidx : (leadDurations prs).length * 9 / 10 < (leadDurations prs).length := by
      omega
    simp only [hne, Bool.false_eq_true, if_false]
    refine ⟨trivial, trivial, ?_⟩
    show ((leadDurations prs).insertionSort (· ≤ ·)).getD
        (((leadDurations prs).insertionSort (· ≤ ·)).length * 9 / 10)
        (pymedian (leadDurations prs))
      = ((leadDurations prs).insertionSort (· ≤ ·)).getD
        ((leadDurations prs).length * 9 / 10) 0
    rw [hsortlen]
    rw [List.getD_eq_getElem?_getD, List.getD_eq_getElem?_getD,
      List.getElem?_eq_getElem (by omega)]
    simp

/-- Witness for C7 at a concrete two-PR input. -/
theorem C7_lead_time_witness :
    leadDurations [⟨1, "a", 0, some 7200, some 3600⟩, ⟨2, "b", 0, some 7200, none⟩] ≠ [] ∧
    (calculate_lead_time
        [⟨1, "a", 0, some 7200, some 3600⟩, ⟨2, "b", 0, some 7200, none⟩]).median_hours
      = pymedian (leadDurations
          [⟨1, "a", 0, some 7200, some 3600⟩, ⟨2, "b", 0, some 7200, none⟩]) :=
  ⟨by simp [leadDurations],
   ((C7_lead_time [⟨1, "a", 0, some 7200, some 3600⟩, ⟨2, "b", 0, some 7200, none⟩]).2
     (by simp [leadDurations])).2.1⟩

/-- C8: with zero successful deployments, whatever the incident list,
`calculate_change_failure_rate` returns percentage 0, total 0, rating ELITE. -/
theorem C8_cfr_zero_deployments (deployments : List GitHubDeployment)
    (incidents : List Incident)
    (h : (deployments.filter (fun d => d.status == "success")).length = 0) :
    calculate_change_failure_rate deployments incidents
      = { percentage := 0, failed_changes := 0, total_deployments := 0,
          rating := .elite } := by
  unfold calculate_change_failure_rate
  simp [h]

/-- Witness for C8: one failed deployment, one (nonempty) incident list. -/
theorem C8_cfr_zero_deployments_witness :
    calculate_change_failure_rate
        [⟨1, "sha", "main", "production", 0, "failure"⟩]
        [⟨"i1", "outage", "open", "minor", 0, none, none, none, none, true, true⟩]
      = { percentage := 0, failed_changes := 0, total_deployments := 0,
          rating := .elite } :=
  C8_cfr_zero_deployments _ _ (by simp)

/-- C9: the rating functions are total (always land in one of the four
buckets), and the boundary values map inclusively: deployment frequency
exactly 1/day is ELITE and exactly 1/7 per day is HIGH; change failure rate
exactly 5% is ELITE and exactly 10% is HIGH. -/
theorem C9_rating_boundaries :
    (∀ x : ℚ, get_deployment_frequency_rating x = .elite ∨
      get_deployment_frequency_rating x = .high ∨
      get_deployment_frequency_rating x = .medium ∨
      get_deployment_frequency_rating x = .low) ∧
    (∀ x : ℚ, get_change_failure_rate_rating x = .elite ∨
      get_change_failure_rate_rating x = .high ∨
      get_change_failure_rate_rating x = .medium ∨
      get_change_failure_rate_rating x = .low) ∧
    get_deployment_frequency_rating 1 = .elite ∧
    get_deployment_frequency_rating (1 / 7) = .high ∧
    get_change_failure_rate_rating 5 = .elite ∧
    get_change_failure_rate_rating 10 = .high := by
  refine ⟨?_, ?_, ?_, ?_, ?_, ?_⟩
  · intro x
    unfold get_deployment_frequency_rating
    split_ifs <;> simp
  · intro x
    unfold get_change_failure_rate_rating
    split_ifs <;> simp
  · unfold get_deployment_frequency_rating
    norm_num
  · unfold get_deployment_frequency_rating
    norm_num
  · unfold get_change_failure_rate_rating
    norm_num
  · unfold get_change_failure_rate_rating
    norm_num

/-- C10: if no incident carries a known resolution duration (including the
empty list), `calculate_mttr` returns average 0, median 0 and rating ELITE. -/
theorem C10_mttr_empty (incidents : List Incident)
    (h : ∀ inc ∈ incidents, inc.time_to_resolve_hours = none) :
    calculate_mttr incidents
      = { average_hours := 0, median_hours := 0, incidents := 0,
          rating := .elite } := by
  unfold calculate_mttr
  have hnil : incidents.filterMap (fun inc => inc.time_to_resolve_hours) = [] :=
    List.filterMap_eq_nil_iff.mpr h
  simp [hnil]

/-- Witness for C10: one unresolved incident. -/
theorem C10_mttr_empty_witness :
    calculate_mttr
        [⟨"i1", "outage", "open", "critical", 0, none, none, none, none, true, true⟩]
      = { average_hours := 0, median_hours := 0, incidents := 0,
          rating := .elite } :=
  C10_mttr_empty _ (by simp)

/-! ### Weekly period generation lemmas -/

theorem weeklyLoop_char (e : Int) (fuel : Nat) :
    ∀ c : Int, e - c < (fuel : Int) * 604800 →
      (∀ i (h : i < (weeklyLoop e fuel c).length),
        (weeklyLoop e fuel c).get ⟨i, h⟩
          = ⟨"weekly", c + 604800 * (i : Int), c + 604800 * (i : Int) + 604799⟩) ∧
      (∀ i : Nat, i < (weeklyLoop e fuel c).length →
        c + 604800 * (i : Int) + 604799 ≤ e) ∧
      e < c + 604800 * ((weeklyLoop e fuel c).length : Int) + 604799 := by
  induction fuel with
  | zero =>
    intro c hc
    refine ⟨?_, ?_, ?_⟩
    · intro i h
      simp [weeklyLoop] at h
    · intro i h
      simp [weeklyLoop] at h
    · simp only [weeklyLoop, List.length_nil, Nat.cast_zero, Nat.cast_ofNat]
      omega
  | succ fuel ih =>
    intro c hc
    by_cases h1 : c < e
    · by_cases h2 : c + 604799 > e
      · have hl : weeklyLoop e (fuel + 1) c = [] := by
          simp only [weeklyLoop]
          rw [if_pos h1, if_pos h2]
        refine ⟨?_, ?_, ?_⟩
        · intro i h
          rw [hl] at h
          simp at h
        · intro i h
          rw [hl] at h
          simp at h
        · rw [hl]
          simp only [List.length_nil, Nat.cast_zero]
          omega
      · have hrec := ih (c + 604800) (by push_cast at hc ⊢; omega)
        have hl : weeklyLoop e (fuel + 1) c
            = ⟨"weekly", c, c + 604799⟩ :: weeklyLoop e fuel (c + 604800) := by
          simp only [weeklyLoop]
          rw [if_pos h1, if_neg h2]
        refine ⟨?_, ?_, ?_⟩
        · intro i h
          rw [List.get_of_eq hl ⟨i, h⟩]
          match i with
          | 0 =>
            simp only [List.get, MetricsPeriod.mk.injEq]
            refine ⟨trivial, by push_cast; ring, by push_cast; ring⟩
          | j + 1 =>
            have h' : j + 1 < (weeklyLoop e (fuel + 1) c).length := h
            rw [hl] at h'
            simp only [List.length_cons, Nat.add_lt_add_iff_right] at h'
            have hj := hrec.1 j h'
            simp only [List.get_cons_succ, hj, MetricsPeriod.mk.injEq]
            refine ⟨trivial, by push_cast; ring, by push_cast; ring⟩
        · intro i h
          rw [hl] at h
          simp only [List.length_cons] at h
          match i with
          | 0 =>
            push_cast
            omega
          | j + 1 =>
            have hj := hrec.2.1 j (by omega)
            push_cast at hj ⊢
            omega
        · rw [hl]
          simp only [List.length_cons]
          have := hrec.2.2
          push_cast at this ⊢
          omega
    · have hl : weeklyLoop e (fuel + 1) c = [] := by
        simp only [weeklyLoop]
        rw [if_neg h1]
      refine ⟨?_, ?_, ?_⟩
      · intro i h
        rw [hl] at h
        simp at h
      · intro i h
        rw [hl] at h
        simp at h
      · rw [hl]
        simp only [List.length_nil, Nat.cast_zero]
        omega

theorem generate_periods_weekly (s e : Int) :
    generate_periods s e "weekly"
      = weeklyLoop (endOfDay e)
          ((endOfDay e - mondayOnOrBefore s).toNat / 604800 + 1)
          (mondayOnOrBefore s) := by
  simp [generate_periods]

theorem midnight_ediv (t : Int) : (midnight t).ediv 86400 = t.ediv 86400 := by
  unfold midnight
  exact Int.mul_ediv_cancel _ (by norm_num)

theorem weekday_midnight (t : Int) : weekday (midnight t) = weekday t := by
  unfold weekday
  rw [midnight_ediv]

theorem mondayOnOrBefore_eq (t : Int) :
    mondayOnOrBefore t
      = 86400 * (t.ediv 86400 - (t.ediv 86400 + 3).emod 7) := by
  unfold mondayOnOrBefore
  rw [weekday_midnight]
  unfold midnight weekday
  ring

theorem mondayOnOrBefore_weekday (t : Int) : weekday (mondayOnOrBefore t) = 0 := by
  rw [mondayOnOrBefore_eq]
  unfold weekday
  have hX : (86400 * (t.ediv 86400 - (t.ediv 86400 + 3).emod 7)).ediv 86400
      = t.ediv 86400 - (t.ediv 86400 + 3).emod 7 :=
    Int.mul_ediv_cancel_left _ (by norm_num)
  rw [hX]
  have h7 : 7 * ((t.ediv 86400 + 3).ediv 7) + (t.ediv 86400 + 3).emod 7
      = t.ediv 86400 + 3 := Int.ediv_add_emod _ 7
  have heq : t.ediv 86400 - (t.ediv 86400 + 3).emod 7 + 3
      = 7 * ((t.ediv 86400 + 3).ediv 7) := by omega
  rw [heq]
  exact Int.mul_emod_right 7 _

theorem mondayOnOrBefore_midnight (t : Int) :
    (mondayOnOrBefore t).emod 86400 = 0 := by
  rw [mondayOnOrBefore_eq]
  exact Int.mul_emod_right 86400 _

theorem mondayOnOrBefore_le (t : Int) :
    mondayOnOrBefore t ≤ midnight t ∧ midnight t - mondayOnOrBefore t ≤ 6 * 86400 := by
  unfold mondayOnOrBefore
  have h1 : 0 ≤ weekday (midnight t) := by
    unfold weekday
    exact Int.emod_nonneg _ (by norm_num)
  have h2 : weekday (midnight t) < 7 := by
    unfold weekday
    exact Int.emod_lt_of_pos _ (by norm_num)
  omega

theorem generate_periods_weekly_fuel (s e : Int) :
    endOfDay e - mondayOnOrBefore s
      < (((endOfDay e - mondayOnOrBefore s).toNat / 604800 + 1 : Nat) : Int) * 604800 := by
  omega

/-- C5: a weekly `generate_periods` run emits, in order, the periods
`[monday + 604800*i, monday + 604800*i + 604799]` where `monday` is midnight
of the Monday on or before the normalized start; every emitted period's end
is within the normalized end, and the period after the last would exceed it
(no partial trailing period). -/
theorem C5_weekly_alignment (s e : Int) :
    (∀ i (h : i < (generate_periods s e "weekly").length),
      (generate_periods s e "weekly").get ⟨i, h⟩
        = ⟨"weekly", mondayOnOrBefore s + 604800 * (i : Int),
            mondayOnOrBefore s + 604800 * (i : Int) + 604799⟩) ∧
    (∀ i : Nat, i < (generate_periods s e "weekly").length →
      mondayOnOrBefore s + 604800 * (i : Int) + 604799 ≤ endOfDay e) ∧
    endOfDay e < mondayOnOrBefore s
        + 604800 * (((generate_periods s e "weekly").length : Nat) : Int) + 604799 ∧
    weekday (mondayOnOrBefore s) = 0 ∧
    (mondayOnOrBefore s).emod 86400 = 0 ∧
    mondayOnOrBefore s ≤ midnight s ∧
    midnight s - mondayOnOrBefore s ≤ 6 * 86400 := by
  have hq := weeklyLoop_char (endOfDay e)
    ((endOfDay e - mondayOnOrBefore s).toNat / 604800 + 1)
    (mondayOnOrBefore s) (generate_periods_weekly_fuel s e)
  rw [generate_periods_weekly]
  exact ⟨hq.1, hq.2.1, hq.2.2, mondayOnOrBefore_weekday s,
    mondayOnOrBefore_midnight s, (mondayOnOrBefore_le s).1, (mondayOnOrBefore_le s).2⟩

/-- Witness for C5: the concrete run over 1970-01-01 to 1970-01-08 yields a
single period starting on Monday 1969-12-29. -/
theorem C5_weekly_alignment_witness :
    (generate_periods 0 604800 "weekly").get ⟨0, by decide⟩
      = ⟨"weekly", mondayOnOrBefore 0 + 604800 * ((0 : Nat) : Int),
          mondayOnOrBefore 0 + 604800 * ((0 : Nat) : Int) + 604799⟩ :=
  (C5_weekly_alignment 0 604800).1 0 (by decide)

/-! ### Monthly period generation lemmas -/

theorem daysInMonth_lb (y m : Nat) : 28 ≤ daysInMonth y m := by
  unfold daysInMonth
  split_ifs <;> omega

theorem daysToMonth_11_add (y : Nat) : daysToMonth y 11 + 31 = daysInYear y := by
  cases h : isLeap y <;>
    simp [daysToMonth, daysInMonth, daysInYear, h]

theorem monthStart_next (y m : Nat) (hy : 1970 ≤ y) (hm1 : 1 ≤ m) (hm2 : m ≤ 12) :
    monthStart y m + 2419200 ≤ monthStart (nextMonth y m).1 (nextMonth y m).2 := by
  unfold nextMonth
  by_cases h12 : m = 12
  · subst h12
    rw [if_pos rfl]
    show monthStart y 12 + 2419200 ≤ monthStart (y + 1) 1
    unfold monthStart
    have h1 : y + 1 - 1970 = (y - 1970) + 1 := by omega
    rw [h1]
    have h2 : daysToYear ((y - 1970) + 1)
        = daysToYear (y - 1970) + daysInYear (1970 + (y - 1970)) := rfl
    have h3 : 1970 + (y - 1970) = y := by omega
    rw [h2, h3]
    have h4 := daysToMonth_11_add y
    have h12a : (12 : Nat) - 1 = 11 := rfl
    have h1a : (1 : Nat) - 1 = 0 := rfl
    rw [h12a, h1a]
    have h5 : daysToMonth (y + 1) 0 = 0 := rfl
    rw [h5]
    push_cast
    omega
  · rw [if_neg h12]
    show monthStart y m + 2419200 ≤ monthStart y (m + 1)
    unfold monthStart
    have hm : m - 1 + 1 = m := by omega
    have h2 : daysToMonth y (m + 1 - 1) = daysToMonth y (m - 1) + daysInMonth y m := by
      have hmm : m + 1 - 1 = (m - 1) + 1 := by omega
      rw [hmm]
      show daysToMonth y (m - 1) + daysInMonth y ((m - 1) + 1) = _
      rw [hm]
    rw [h2]
    have h6 := daysInMonth_lb y m
    push_cast
    omega

theorem nextMonth_bounds (y m : Nat) (hy : 1970 ≤ y) (hm1 : 1 ≤ m) (hm2 : m ≤ 12) :
    1970 ≤ (nextMonth y m).1 ∧ 1 ≤ (nextMonth y m).2 ∧ (nextMonth y m).2 ≤ 12 := by
  unfold nextMonth
  split_ifs with h <;> simp <;> omega

theorem monthlyLoop_safety (e : Int) (fuel : Nat) :
    ∀ y m, 1970 ≤ y → 1 ≤ m → m ≤ 12 →
      ((monthlyLoop e fuel y m).Pairwise
        (fun p q => p.start_date < q.start_date ∧ p.end_date < q.start_date)) ∧
      (∀ p ∈ monthlyLoop e fuel y m,
        monthStart y m ≤ p.start_date ∧ p.start_date ≤ p.end_date ∧
          p.end_date ≤ e ∧ p.ptype = "monthly") := by
  induction fuel with
  | zero =>
    intro y m hy hm1 hm2
    constructor
    · simp [monthlyLoop]
    · intro p hp
      simp [monthlyLoop] at hp
  | succ fuel ih =>
    intro y m hy hm1 hm2
    have hnext := monthStart_next y m hy hm1 hm2
    obtain ⟨hy', hm1', hm2'⟩ := nextMonth_bounds y m hy hm1 hm2
    have ihn := ih (nextMonth y m).1 (nextMonth y m).2 hy' hm1' hm2'
    by_cases h1 : monthStart y m < e
    · by_cases h2 : monthStart (nextMonth y m).1 (nextMonth y m).2 - 1 > e
      · have hl : monthlyLoop e (fuel + 1) y m = [] := by
          simp only [monthlyLoop]
          rw [if_pos h1, if_pos h2]
        rw [hl]
        exact ⟨List.Pairwise.nil, by simp⟩
      · have hl : monthlyLoop e (fuel + 1) y m
            = ⟨"monthly", monthStart y m,
                monthStart (nextMonth y m).1 (nextMonth y m).2 - 1⟩
              :: monthlyLoop e fuel (nextMonth y m).1 (nextMonth y m).2 := by
          simp only [monthlyLoop]
          rw [if_pos h1, if_neg h2]
        rw [hl]
        constructor
        · refine List.Pairwise.cons ?_ ihn.1
          intro q hq
          have hmem := (ihn.2 q hq).1
          constructor
          · show monthStart y m < q.start_date
            omega
          · show monthStart (nextMonth y m).1 (nextMonth y m).2 - 1 < q.start_date
            omega
        · intro p hp
          rw [List.mem_cons] at hp
          rcases hp with rfl | hp
          · refine ⟨le_refl _, ?_, ?_, rfl⟩
            · show monthStart y m
                ≤ monthStart (nextMonth y m).1 (nextMonth y m).2 - 1
              omega
            · show monthStart (nextMonth y m).1 (nextMonth y m).2 - 1 ≤ e
              omega
          · have hmem := ihn.2 p hp
            exact ⟨by omega, hmem.2.1, hmem.2.2⟩
    · have hl : monthlyLoop e (fuel + 1) y m = [] := by
        simp only [monthlyLoop]
        rw [if_neg h1]
      rw [hl]
      exact ⟨List.Pairwise.nil, by simp⟩

theorem yearSplit_ge (fuel : Nat) :
    ∀ y rem, y ≤ (yearSplit fuel y rem).1 := by
  induction fuel with
  | zero => intro y rem; exact le_refl y
  | succ fuel ih =>
    intro y rem
    unfold yearSplit
    split_ifs with h
    · exact le_refl y
    · exact le_trans (by omega) (ih (y + 1) (rem - daysInYear y))

theorem monthSplit_bounds (y : Nat) (fuel : Nat) :
    ∀ m rem, 1 ≤ m → m ≤ 12 →
      1 ≤ (monthSplit y fuel m rem).1 ∧ (monthSplit y fuel m rem).1 ≤ 12 := by
  induction fuel with
  | zero => intro m rem hm1 hm2; exact ⟨hm1, hm2⟩
  | succ fuel ih =>
    intro m rem hm1 hm2
    unfold monthSplit
    split_ifs with h
    · exact ⟨hm1, hm2⟩
    · push_neg at h
      exact ih (m + 1) (rem - daysInMonth y m) (by omega) (by omega)

theorem startYM_bounds (s : Int) :
    1970 ≤ (startYM s).1 ∧ 1 ≤ (startYM s).2 ∧ (startYM s).2 ≤ 12 := by
  unfold startYM civilFromDays
  refine ⟨yearSplit_ge _ _ _, ?_, ?_⟩
  · exact (monthSplit_bounds _ 12 1 _ (by omega) (by omega)).1
  · exact (monthSplit_bounds _ 12 1 _ (by omega) (by omega)).2

theorem generate_periods_monthly (s e : Int) (pt : String) (hpt : ¬pt = "weekly") :
    generate_periods s e pt
      = monthlyLoop (endOfDay e)
          ((endOfDay e - monthStart (startYM s).1 (startYM s).2).toNat / 2419200 + 1)
          (startYM s).1 (startYM s).2 := by
  simp [generate_periods, hpt]

/-- C4: for all `start ≤ end` and both period types, the generated periods
are pairwise non-overlapping and strictly increasing in start time, no
period's end exceeds the normalized end (23:59:59 of the end date), and a
range holding no full period yields `[]` rather than an error (the function
is total). -/
theorem C4_period_invariants (s e : Int) (hse : s ≤ e) (pt : String) :
    ((generate_periods s e pt).Pairwise
      (fun p q => p.start_date < q.start_date ∧ p.end_date < q.start_date)) ∧
    (∀ p ∈ generate_periods s e pt,
      p.start_date ≤ p.end_date ∧ p.end_date ≤ endOfDay e) ∧
    (pt = "weekly" → endOfDay e < mondayOnOrBefore s + 604799 →
      generate_periods s e pt = []) ∧
    (¬pt = "weekly" →
      endOfDay e
          < monthStart (nextMonth (startYM s).1 (startYM s).2).1
              (nextMonth (startYM s).1 (startYM s).2).2 - 1 →
      generate_periods s e pt = []) := by
  by_cases hpt : pt = "weekly"
  · subst hpt
    have hq := weeklyLoop_char (endOfDay e)
      ((endOfDay e - mondayOnOrBefore s).toNat / 604800 + 1)
      (mondayOnOrBefore s) (generate_periods_weekly_fuel s e)
    rw [generate_periods_weekly]
    refine ⟨?_, ?_, ?_, ?_⟩
    · rw [List.pairwise_iff_get]
      intro i j hij
      have h1 := hq.1 i i.isLt
      have h2 := hq.1 j j.isLt
      rw [h1, h2]
      have hlt : (i : Nat) < (j : Nat) := hij
      constructor <;> (dsimp only; omega)
    · intro p hp
      obtain ⟨i, hi⟩ := List.mem_iff_get.mp hp
      have h1 := hq.1 i i.isLt
      have h2 := hq.2.1 i i.isLt
      rw [h1] at hi
      rw [← hi]
      dsimp only
      omega
    · intro _ hbound
      cases hL : weeklyLoop (endOfDay e)
          ((endOfDay e - mondayOnOrBefore s).toNat / 604800 + 1)
          (mondayOnOrBefore s) with
      | nil => rfl
      | cons a l =>
        exfalso
        have h0 := hq.2.1 0 (by rw [hL]; simp)
        simp only [Nat.cast_zero] at h0
        omega
    · intro hne
      exact absurd rfl hne
  · obtain ⟨hy, hm1, hm2⟩ := startYM_bounds s
    have hsafe := monthlyLoop_safety (endOfDay e)
      ((endOfDay e - monthStart (startYM s).1 (startYM s).2).toNat / 2419200 + 1)
      (startYM s).1 (startYM s).2 hy hm1 hm2
    rw [generate_periods_monthly s e pt hpt]
    refine ⟨hsafe.1, ?_, ?_, ?_⟩
    · intro p hp
      have := hsafe.2 p hp
      exact ⟨this.2.1, this.2.2.1⟩
    · intro h
      exact absurd h hpt
    · intro _ hbound
      simp only [monthlyLoop]
      have hc2 : monthStart (nextMonth (startYM s).1 (startYM s).2).1
          (nextMonth (startYM s).1 (startYM s).2).2 - 1 > endOfDay e := by omega
      rw [if_pos hc2]
      split_ifs <;> rfl

/-- Witness for C4 at a concrete weekly invocation. -/
theorem C4_period_invariants_witness :
    (generate_periods 0 604800 "weekly").Pairwise
      (fun p q => p.start_date < q.start_date ∧ p.end_date < q.start_date) :=
  (C4_period_invariants 0 604800 (by decide) "weekly").1

/-- C6: a weekly generated period spans `604799` seconds, so the day divisor
`max((end - start).days, 1)` of `calculate_deployment_frequency` is 6, not
7; six successful deployments in such a period rate as exactly 1.0 per day
and ELITE, and per-week is always per-day times 7. -/
theorem C6_weekly_day_divisor (s e : Int) (p : MetricsPeriod)
    (hp : p ∈ generate_periods s e "weekly") (ds : List GitHubDeployment)
    (h6 : (ds.filter (fun d => d.status == "success")).length = 6) :
    max ((p.end_date - p.start_date).ediv 86400) 1 = 6 ∧
    (calculate_deployment_frequency ds p).deployments_per_day = 1 ∧
    (calculate_deployment_frequency ds p).rating = .elite ∧
    (∀ ds' : List GitHubDeployment,
      (calculate_deployment_frequency ds' p).deployments_per_week
        = (calculate_deployment_frequency ds' p).deployments_per_day * 7) := by
  have hq := weeklyLoop_char (endOfDay e)
    ((endOfDay e - mondayOnOrBefore s).toNat / 604800 + 1)
    (mondayOnOrBefore s) (generate_periods_weekly_fuel s e)
  rw [generate_periods_weekly] at hp
  obtain ⟨i, hi⟩ := List.mem_iff_get.mp hp
  have h1 := hq.1 i i.isLt
  rw [h1] at hi
  have hspan : p.end_date - p.start_date = 604799 := by
    rw [← hi]
    show (mondayOnOrBefore s + 604800 * ((i : Nat) : Int) + 604799)
        - (mondayOnOrBefore s + 604800 * ((i : Nat) : Int)) = 604799
    ring
  have hdiv : max ((p.end_date - p.start_date).ediv 86400) 1 = 6 := by
    rw [hspan]
    decide
  refine ⟨hdiv, ?_, ?_, ?_⟩
  · show ((ds.filter (fun d => d.status == "success")).length : ℚ)
        / ((max ((p.end_date - p.start_date).ediv 86400) 1 : Int) : ℚ) = 1
    rw [h6, hdiv]
    norm_num
  · show get_deployment_frequency_rating
        (((ds.filter (fun d => d.status == "success")).length : ℚ)
          / ((max ((p.end_date - p.start_date).ediv 86400) 1 : Int) : ℚ)) = .elite
    rw [h6, hdiv]
    norm_num [get_deployment_frequency_rating]
  · intro ds'
    rfl

/-- Witness for C6: the single period of the 1970-01-01 to 1970-01-08 weekly
run with six successful deployments. -/
theorem C6_weekly_day_divisor_witness :
    (calculate_deployment_frequency
        [⟨1, "a", "r", "p", 0, "success"⟩, ⟨2, "b", "r", "p", 0, "success"⟩,
         ⟨3, "c", "r", "p", 0, "success"⟩, ⟨4, "d", "r", "p", 0, "success"⟩,
         ⟨5, "e", "r", "p", 0, "success"⟩, ⟨6, "f", "r", "p", 0, "success"⟩]
        ⟨"weekly", -259200, 345599⟩).rating = .elite :=
  (C6_weekly_day_divisor 0 604800 ⟨"weekly", -259200, 345599⟩ (by decide)
    _ (by decide)).2.2.1

/-! ### Upsert lemmas -/

section UpsertLemmas

variable {Row Cand K M I : Type} [DecidableEq K]
variable (key : Row → K) (ckey : Cand → K)
variable (patch : Row → Cand → Row) (mk : Cand → Row)
variable (obs : Row → M) (cobs : Cand → M) (idf : Row → I)

theorem upsertAll_cons (store : List Row) (c : Cand) (cs : List Cand) :
    upsertAll key ckey patch mk store (c :: cs)
      = upsertAll key ckey patch mk (upsertOne key ckey patch mk store c) cs := rfl

theorem upsertOne_keys
    (hkeyPatch : ∀ r c, key (patch r c) = key r)
    (hkeyMk : ∀ c, key (mk c) = ckey c)
    (store : List Row) (c : Cand) :
    (upsertOne key ckey patch mk store c).map key
      = if ∃ r ∈ store, key r = ckey c then store.map key
        else store.map key ++ [ckey c] := by
  unfold upsertOne
  split_ifs with h
  · rw [List.map_map]
    apply List.map_congr_left
    intro r _
    by_cases hk : key r = ckey c
    · simp [hk, hkeyPatch]
    · simp [hk]
  · simp [hkeyMk]

theorem upsertOne_key_mem
    (hkeyPatch : ∀ r c, key (patch r c) = key r)
    (hkeyMk : ∀ c, key (mk c) = ckey c)
    (store : List Row) (c : Cand) (k : K) (hk : k ∈ store.map key) :
    k ∈ (upsertOne key ckey patch mk store c).map key := by
  rw [upsertOne_keys key ckey patch mk hkeyPatch hkeyMk]
  split_ifs with h
  · exact hk
  · exact List.mem_append_left _ hk

theorem upsertOne_ckey_mem
    (hkeyPatch : ∀ r c, key (patch r c) = key r)
    (hkeyMk : ∀ c, key (mk c) = ckey c)
    (store : List Row) (c : Cand) :
    ckey c ∈ (upsertOne key ckey patch mk store c).map key := by
  rw [upsertOne_keys key ckey patch mk hkeyPatch hkeyMk]
  split_ifs with h
  · obtain ⟨r, hr, hkr⟩ := h
    exact List.mem_map.mpr ⟨r, hr, hkr⟩
  · exact List.mem_append_right _ (by simp)

theorem upsertAll_key_mem
    (hkeyPatch : ∀ r c, key (patch r c) = key r)
    (hkeyMk : ∀ c, key (mk c) = ckey c) :
    ∀ (cs : List Cand) (store : List Row) (k : K), k ∈ store.map key →
      k ∈ (upsertAll key ckey patch mk store cs).map key := by
  intro cs
  induction cs with
  | nil => intro store k hk; exact hk
  | cons c cs ih =>
    intro store k hk
    rw [upsertAll_cons]
    exact ih _ k (upsertOne_key_mem key ckey patch mk hkeyPatch hkeyMk store c k hk)

theorem upsertAll_ckey_mem
    (hkeyPatch : ∀ r c, key (patch r c) = key r)
    (hkeyMk : ∀ c, key (mk c) = ckey c) :
    ∀ (cs : List Cand) (store : List Row) (c : Cand), c ∈ cs →
      ckey c ∈ (upsertAll key ckey patch mk store cs).map key := by
  intro cs
  induction cs with
  | nil => intro store c hc; simp at hc
  | cons c0 cs ih =>
    intro store c hc
    rw [upsertAll_cons]
    rw [List.mem_cons] at hc
    rcases hc with rfl | hc
    · exact upsertAll_key_mem key ckey patch mk hkeyPatch hkeyMk cs _ (ckey c)
        (upsertOne_ckey_mem key ckey patch mk hkeyPatch hkeyMk store c)
    · exact ih _ c hc

theorem upsertAll_nodup_keys
    (hkeyPatch : ∀ r c, key (patch r c) = key r)
    (hkeyMk : ∀ c, key (mk c) = ckey c) :
    ∀ (cs : List Cand) (store : List Row), (store.map key).Nodup →
      ((upsertAll key ckey patch mk store cs).map key).Nodup := by
  intro cs
  induction cs with
  | nil => intro store h; exact h
  | cons c cs ih =>
    intro store h
    rw [upsertAll_cons]
    apply ih
    rw [upsertOne_keys key ckey patch mk hkeyPatch hkeyMk]
    split_ifs with hc
    · exact h
    · have hnotin : ckey c ∉ store.map key := by
        intro hmem
        obtain ⟨r, hr, hkr⟩ := List.mem_map.mp hmem
        exact hc ⟨r, hr, hkr⟩
      simp [List.nodup_append, h, hnotin]

theorem upsertAll_mut_frozen
    (hkeyPatch : ∀ r c, key (patch r c) = key r)
    (hkeyMk : ∀ c, key (mk c) = ckey c)
    (k : K) (v : M) :
    ∀ (cs : List Cand) (store : List Row), lastCand ckey cs k = none →
      (∀ r ∈ store, key r = k → obs r = v) →
      ∀ r ∈ upsertAll key ckey patch mk store cs, key r = k → obs r = v := by
  intro cs
  induction cs with
  | nil => intro store _ hstore r hr hk; exact hstore r hr hk
  | cons c cs ih =>
    intro store hlast hstore r hr hk
    have hcs : lastCand ckey cs k = none := by
      unfold lastCand at hlast
      cases h : lastCand ckey cs k with
      | none => rfl
      | some c' => rw [h] at hlast; simp at hlast
    have hne : ckey c ≠ k := by
      unfold lastCand at hlast
      rw [hcs] at hlast
      intro habs
      rw [if_pos habs] at hlast
      simp at hlast
    rw [upsertAll_cons] at hr
    refine ih _ hcs ?_ r hr hk
    intro r0 hr0 hk0
    unfold upsertOne at hr0
    split_ifs at hr0 with hconf
    · obtain ⟨r1, hr1, hr1eq⟩ := List.mem_map.mp hr0
      by_cases hk1 : key r1 = ckey c
      · rw [if_pos hk1] at hr1eq
        rw [← hr1eq] at hk0
        rw [hkeyPatch] at hk0
        exact absurd (hk1.symm.trans hk0) hne
      · rw [if_neg hk1] at hr1eq
        rw [← hr1eq] at hk0 ⊢
        exact hstore r1 hr1 hk0
    · rw [List.mem_append] at hr0
      rcases hr0 with hr0 | hr0
      · exact hstore r0 hr0 hk0
      · rw [List.mem_singleton] at hr0
        subst hr0
        rw [hkeyMk] at hk0
        exact absurd hk0 hne

theorem upsertAll_mut_last
    (hkeyPatch : ∀ r c, key (patch r c) = key r)
    (hkeyMk : ∀ c, key (mk c) = ckey c)
    (hmutPatch : ∀ r c, obs (patch r c) = cobs c)
    (hmutMk : ∀ c, obs (mk c) = cobs c) :
    ∀ (cs : List Cand) (store : List Row) (r : Row),
      r ∈ upsertAll key ckey patch mk store cs →
      ∀ c', lastCand ckey cs (key r) = some c' → obs r = cobs c' := by
  intro cs
  induction cs with
  | nil => intro store r _ c' hlast; simp [lastCand] at hlast
  | cons c cs ih =>
    intro store r hr c' hlast
    rw [upsertAll_cons] at hr
    cases hcs : lastCand ckey cs (key r) with
    | some c'' =>
      have : c' = c'' := by
        unfold lastCand at hlast
        rw [hcs] at hlast
        simp at hlast
        exact hlast.symm
      subst this
      exact ih _ r hr c' hcs
    | none =>
      have hck : ckey c = key r ∧ c' = c := by
        unfold lastCand at hlast
        rw [hcs] at hlast
        by_cases habs : ckey c = key r
        · rw [if_pos habs] at hlast
          simp at hlast
          exact ⟨habs, hlast.symm⟩
        · rw [if_neg habs] at hlast
          simp at hlast
      obtain ⟨hck1, rfl⟩ := hck
      refine upsertAll_mut_frozen key ckey patch mk obs hkeyPatch hkeyMk
        (key r) (cobs c') cs _ hcs ?_ r hr rfl
      intro r0 hr0 hk0
      unfold upsertOne at hr0
      split_ifs at hr0 with hconf
      · obtain ⟨r1, _, hr1eq⟩ := List.mem_map.mp hr0
        by_cases hk1 : key r1 = ckey c'
        · rw [if_pos hk1] at hr1eq
          rw [← hr1eq]
          exact hmutPatch r1 c'
        · rw [if_neg hk1] at hr1eq
          rw [← hr1eq] at hk0
          exact absurd (hk0.trans hck1.symm) hk1
      · rw [List.mem_append] at hr0
        rcases hr0 with hr0 | hr0
        · exact absurd ⟨r0, hr0, hk0.trans hck1.symm⟩ hconf
        · rw [List.mem_singleton] at hr0
          subst hr0
          exact hmutMk c'

theorem upsertAll_all_conflict
    (hkeyPatch : ∀ r c, key (patch r c) = key r)
    (hpatchPatch : ∀ r c c', patch (patch r c) c' = patch r c') :
    ∀ (cs : List Cand) (store : List Row),
      (∀ c ∈ cs, ∃ r ∈ store, key r = ckey c) →
      upsertAll key ckey patch mk store cs
        = store.map (fun r =>
            match lastCand ckey cs (key r) with
            | some c => patch r c
            | none => r) := by
  intro cs
  induction cs with
  | nil =>
    intro store _
    show store = _
    simp [lastCand]
  | cons c cs ih =>
    intro store hall
    rw [upsertAll_cons]
    have hc : ∃ r ∈ store, key r = ckey c := hall c (by simp)
    have hone : upsertOne key ckey patch mk store c
        = store.map (fun r => if key r = ckey c then patch r c else r) := by
      unfold upsertOne
      rw [if_pos hc]
    rw [hone]
    have hall' : ∀ c' ∈ cs, ∃ r ∈ store.map
        (fun r => if key r = ckey c then patch r c else r), key r = ckey c' := by
      intro c' hc'
      obtain ⟨r, hr, hkr⟩ := hall c' (by simp [hc'])
      refine ⟨if key r = ckey c then patch r c else r, List.mem_map.mpr ⟨r, hr, rfl⟩, ?_⟩
      by_cases hk : key r = ckey c
      · rw [if_pos hk, hkeyPatch]; exact hkr
      · rw [if_neg hk]; exact hkr
    rw [ih _ hall', List.map_map]
    apply List.map_congr_left
    intro r _
    show (match lastCand ckey cs
        (key (if key r = ckey c then patch r c else r)) with
      | some c'' => patch (if key r = ckey c then patch r c else r) c''
      | none => (if key r = ckey c then patch r c else r))
      = _
    have hkeep : key (if key r = ckey c then patch r c else r) = key r := by
      by_cases hk : key r = ckey c
      · rw [if_pos hk, hkeyPatch]
      · rw [if_neg hk]
    rw [hkeep]
    by_cases hk : key r = ckey c
    · cases hcs : lastCand ckey cs (key r) with
      | some c'' =>
        have hcons : lastCand ckey (c :: cs) (key r) = some c'' := by
          unfold lastCand
          rw [hcs]
        simp only [hcs, hcons, if_pos hk]
        exact hpatchPatch r c c''
      | none =>
        have hcons : lastCand ckey (c :: cs) (key r) = some c := by
          unfold lastCand
          rw [hcs, if_pos hk.symm]
        simp only [hcs, hcons, if_pos hk]
    · cases hcs : lastCand ckey cs (key r) with
      | some c'' =>
        have hcons : lastCand ckey (c :: cs) (key r) = some c'' := by
          unfold lastCand
          rw [hcs]
        simp only [hcs, hcons, if_neg hk]
      | none =>
        have hcons : lastCand ckey (c :: cs) (key r) = none := by
          unfold lastCand
          rw [hcs, if_neg (fun h => hk h.symm)]
        simp only [hcs, hcons, if_neg hk]

theorem upsertAll_idem
    (hkeyPatch : ∀ r c, key (patch r c) = key r)
    (hkeyMk : ∀ c, key (mk c) = ckey c)
    (hmutPatch : ∀ r c, obs (patch r c) = cobs c)
    (hmutMk : ∀ c, obs (mk c) = cobs c)
    (hpatchSelf : ∀ r c, obs r = cobs c → patch r c = r)
    (hpatchPatch : ∀ r c c', patch (patch r c) c' = patch r c')
    (store : List Row) (cs : List Cand) :
    upsertAll key ckey patch mk (upsertAll key ckey patch mk store cs) cs
      = upsertAll key ckey patch mk store cs := by
  have hall : ∀ c ∈ cs, ∃ r ∈ upsertAll key ckey patch mk store cs,
      key r = ckey c := by
    intro c hc
    have hmem := upsertAll_ckey_mem key ckey patch mk hkeyPatch hkeyMk cs store c hc
    obtain ⟨r, hr, hkr⟩ := List.mem_map.mp hmem
    exact ⟨r, hr, hkr⟩
  rw [upsertAll_all_conflict key ckey patch mk hkeyPatch hpatchPatch cs _ hall]
  have hid : ∀ r ∈ upsertAll key ckey patch mk store cs,
      (match lastCand ckey cs (key r) with
        | some c => patch r c
        | none => r) = r := by
    intro r hr
    cases hcs : lastCand ckey cs (key r) with
    | none => rfl
    | some c' =>
      have hmut := upsertAll_mut_last key ckey patch mk obs cobs
        hkeyPatch hkeyMk hmutPatch hmutMk cs store r hr c' hcs
      show patch r c' = r
      exact hpatchSelf r c' hmut
  calc (upsertAll key ckey patch mk store cs).map _
      = (upsertAll key ckey patch mk store cs).map id :=
        List.map_congr_left hid
    _ = upsertAll key ckey patch mk store cs := List.map_id _

theorem upsertOne_idf_preserved
    (hkeyPatch : ∀ r c, key (patch r c) = key r)
    (hidfPatch : ∀ r c, idf (patch r c) = idf r)
    (store : List Row) (c : Cand) (r : Row) (hr : r ∈ store) :
    ∃ r' ∈ upsertOne key ckey patch mk store c,
      key r' = key r ∧ idf r' = idf r := by
  unfold upsertOne
  split_ifs with hconf
  · refine ⟨if key r = ckey c then patch r c else r,
      List.mem_map.mpr ⟨r, hr, rfl⟩, ?_, ?_⟩
    · by_cases hk : key r = ckey c
      · rw [if_pos hk, hkeyPatch]
      · rw [if_neg hk]
    · by_cases hk : key r = ckey c
      · rw [if_pos hk, hidfPatch]
      · rw [if_neg hk]
  · exact ⟨r, List.mem_append_left _ hr, rfl, rfl⟩

theorem upsertAll_idf_preserved
    (hkeyPatch : ∀ r c, key (patch r c) = key r)
    (hidfPatch : ∀ r c, idf (patch r c) = idf r) :
    ∀ (cs : List Cand) (store : List Row) (r : Row), r ∈ store →
      ∃ r' ∈ upsertAll key ckey patch mk store cs,
        key r' = key r ∧ idf r' = idf r := by
  intro cs
  induction cs with
  | nil => intro store r hr; exact ⟨r, hr, rfl, rfl⟩
  | cons c cs ih =>
    intro store r hr
    obtain ⟨r1, hr1, hk1, hi1⟩ := upsertOne_idf_preserved key ckey patch mk idf
      hkeyPatch hidfPatch store c r hr
    obtain ⟨r2, hr2, hk2, hi2⟩ := ih _ r1 hr1
    rw [upsertAll_cons]
    exact ⟨r2, hr2, hk2.trans hk1, hi2.trans hi1⟩

end UpsertLemmas

theorem deploymentPatch_self (now : Int) (r : DeploymentRecord)
    (d : GitHubDeployment) (h : (r.status, r.fetched_at) = (d.status, now)) :
    deploymentPatch now r d = r := by
  cases r
  simp only [Prod.mk.injEq] at h
  simp [deploymentPatch, h.1, h.2]

theorem pullRequestPatch_self (now : Int) (r : PullRequestRecord)
    (pr : GitHubPullRequest)
    (h : (r.title, r.merged_at, r.first_commit_at, r.fetched_at)
      = (pr.title, pr.merged_at, pr.first_commit_at, now)) :
    pullRequestPatch now r pr = r := by
  cases r
  simp only [Prod.mk.injEq] at h
  simp [pullRequestPatch, h.1, h.2.1, h.2.2.1, h.2.2.2]

theorem incidentPatch_self (now : Int) (r : IncidentRecord) (inc : Incident)
    (h : (r.name, r.status, r.severity, r.resolved_at, r.impact_started_at,
          r.duration_seconds, r.time_to_resolve_hours, r.is_change_related,
          r.is_user_impacting, r.fetched_at)
      = (inc.name, inc.status, inc.severity, inc.resolved_at,
          inc.impact_started_at, inc.duration_seconds,
          inc.time_to_resolve_hours, inc.is_change_related,
          inc.is_user_impacting, now)) :
    incidentPatch now r inc = r := by
  cases r
  simp only [Prod.mk.injEq] at h
  simp [incidentPatch, h.1, h.2.1, h.2.2.1, h.2.2.2.1, h.2.2.2.2.1,
    h.2.2.2.2.2.1, h.2.2.2.2.2.2.1, h.2.2.2.2.2.2.2.1,
    h.2.2.2.2.2.2.2.2.1, h.2.2.2.2.2.2.2.2.2]

/-- C3: each upsert (deployments, pull requests, incidents) applied twice
with the same candidate set leaves the table in the same state as applied
once (at a fixed `fetched_at` timestamp `now`); key uniqueness is preserved
and every candidate's key is stored; a stored row's mutable fields equal
those of the last candidate carrying its key; identity fields of
pre-existing rows are never rewritten on conflict. -/
theorem C3_upsert_idempotent (now : Int)
    (dstore : List DeploymentRecord) (dcands : List GitHubDeployment)
    (pstore : List PullRequestRecord) (pcands : List GitHubPullRequest)
    (istore : List IncidentRecord) (icands : List Incident)
    (hd : (dstore.map (fun r => r.github_deployment_id)).Nodup)
    (hp : (pstore.map (fun r => r.github_pr_number)).Nodup)
    (hi : (istore.map (fun r => r.incident_io_id)).Nodup) :
    (upsert_deployments now (upsert_deployments now dstore dcands) dcands
        = upsert_deployments now dstore dcands ∧
      ((upsert_deployments now dstore dcands).map
        (fun r => r.github_deployment_id)).Nodup ∧
      (∀ d ∈ dcands, d.id ∈ (upsert_deployments now dstore dcands).map
        (fun r => r.github_deployment_id)) ∧
      (∀ r ∈ upsert_deployments now dstore dcands, ∀ d,
        lastCand (fun d : GitHubDeployment => d.id) dcands
            r.github_deployment_id = some d →
        (r.status, r.fetched_at) = (d.status, now)) ∧
      (∀ r ∈ dstore, ∃ r' ∈ upsert_deployments now dstore dcands,
        r'.github_deployment_id = r.github_deployment_id ∧
        (r'.sha, r'.ref, r'.environment, r'.created_at)
          = (r.sha, r.ref, r.environment, r.created_at))) ∧
    (upsert_pull_requests now (upsert_pull_requests now pstore pcands) pcands
        = upsert_pull_requests now pstore pcands ∧
      ((upsert_pull_requests now pstore pcands).map
        (fun r => r.github_pr_number)).Nodup ∧
      (∀ pr ∈ pcands, pr.number ∈ (upsert_pull_requests now pstore pcands).map
        (fun r => r.github_pr_number)) ∧
      (∀ r ∈ upsert_pull_requests now pstore pcands, ∀ pr,
        lastCand (fun pr : GitHubPullRequest => pr.number) pcands
            r.github_pr_number = some pr →
        (r.title, r.merged_at, r.first_commit_at, r.fetched_at)
          = (pr.title, pr.merged_at, pr.first_commit_at, now)) ∧
      (∀ r ∈ pstore, ∃ r' ∈ upsert_pull_requests now pstore pcands,
        r'.github_pr_number = r.github_pr_number ∧
        r'.created_at = r.created_at)) ∧
    (upsert_incidents now (upsert_incidents now istore icands) icands
        = upsert_incidents now istore icands ∧
      ((upsert_incidents now istore icands).map
        (fun r => r.incident_io_id)).Nodup ∧
      (∀ inc ∈ icands, inc.id ∈ (upsert_incidents now istore icands).map
        (fun r => r.incident_io_id)) ∧
      (∀ r ∈ upsert_incidents now istore icands, ∀ inc,
        lastCand (fun inc : Incident => inc.id) icands
            r.incident_io_id = some inc →
        (r.name, r.status, r.severity, r.resolved_at, r.impact_started_at,
          r.duration_seconds, r.time_to_resolve_hours, r.is_change_related,
          r.is_user_impacting, r.fetched_at)
          = (inc.name, inc.status, inc.severity, inc.resolved_at,
              inc.impact_started_at, inc.duration_seconds,
              inc.time_to_resolve_hours, inc.is_change_related,
              inc.is_user_impacting, now)) ∧
      (∀ r ∈ istore, ∃ r' ∈ upsert_incidents now istore icands,
        r'.incident_io_id = r.incident_io_id ∧
        r'.created_at = r.created_at)) := by
  refine ⟨⟨?_, ?_, ?_, ?_, ?_⟩, ⟨?_, ?_, ?_, ?_, ?_⟩, ⟨?_, ?_, ?_, ?_, ?_⟩⟩
  · exact upsertAll_idem (fun r : DeploymentRecord => r.github_deployment_id)
      (fun d : GitHubDeployment => d.id) (deploymentPatch now) (deploymentRowOf now)
      (fun r : DeploymentRecord => (r.status, r.fetched_at)) (fun d : GitHubDeployment => (d.status, now))
      (fun _ _ => rfl) (fun _ => rfl) (fun _ _ => rfl) (fun _ => rfl)
      (deploymentPatch_self now) (fun _ _ _ => rfl) dstore dcands
  · exact upsertAll_nodup_keys (fun r : DeploymentRecord => r.github_deployment_id)
      (fun d : GitHubDeployment => d.id) (deploymentPatch now) (deploymentRowOf now)
      (fun _ _ => rfl) (fun _ => rfl) dcands dstore hd
  · intro d hdmem
    exact upsertAll_ckey_mem (fun r : DeploymentRecord => r.github_deployment_id)
      (fun d : GitHubDeployment => d.id) (deploymentPatch now) (deploymentRowOf now)
      (fun _ _ => rfl) (fun _ => rfl) dcands dstore d hdmem
  · intro r hr d hlast
    exact upsertAll_mut_last (fun r : DeploymentRecord => r.github_deployment_id)
      (fun d : GitHubDeployment => d.id) (deploymentPatch now) (deploymentRowOf now)
      (fun r : DeploymentRecord => (r.status, r.fetched_at)) (fun d : GitHubDeployment => (d.status, now))
      (fun _ _ => rfl) (fun _ => rfl) (fun _ _ => rfl) (fun _ => rfl)
      dcands dstore r hr d hlast
  · intro r hr
    exact upsertAll_idf_preserved (fun r : DeploymentRecord => r.github_deployment_id)
      (fun d : GitHubDeployment => d.id) (deploymentPatch now) (deploymentRowOf now)
      (fun r : DeploymentRecord => (r.sha, r.ref, r.environment, r.created_at))
      (fun _ _ => rfl) (fun _ _ => rfl) dcands dstore r hr
  · exact upsertAll_idem (fun r : PullRequestRecord => r.github_pr_number)
      (fun pr : GitHubPullRequest => pr.number) (pullRequestPatch now) (pullRequestRowOf now)
      (fun r : PullRequestRecord => (r.title, r.merged_at, r.first_commit_at, r.fetched_at))
      (fun pr : GitHubPullRequest => (pr.title, pr.merged_at, pr.first_commit_at, now))
      (fun _ _ => rfl) (fun _ => rfl) (fun _ _ => rfl) (fun _ => rfl)
      (pullRequestPatch_self now) (fun _ _ _ => rfl) pstore pcands
  · exact upsertAll_nodup_keys (fun r : PullRequestRecord => r.github_pr_number)
      (fun pr : GitHubPullRequest => pr.number) (pullRequestPatch now) (pullRequestRowOf now)
      (fun _ _ => rfl) (fun _ => rfl) pcands pstore hp
  · intro pr hprmem
    exact upsertAll_ckey_mem (fun r : PullRequestRecord => r.github_pr_number)
      (fun pr : GitHubPullRequest => pr.number) (pullRequestPatch now) (pullRequestRowOf now)
      (fun _ _ => rfl) (fun _ => rfl) pcands pstore pr hprmem
  · intro r hr pr hlast
    exact upsertAll_mut_last (fun r : PullRequestRecord => r.github_pr_number)
      (fun pr : GitHubPullRequest => pr.number) (pullRequestPatch now) (pullRequestRowOf now)
      (fun r : PullRequestRecord => (r.title, r.merged_at, r.first_commit_at, r.fetched_at))
      (fun pr : GitHubPullRequest => (pr.title, pr.merged_at, pr.first_commit_at, now))
      (fun _ _ => rfl) (fun _ => rfl) (fun _ _ => rfl) (fun _ => rfl)
      pcands pstore r hr pr hlast
  · intro r hr
    exact upsertAll_idf_preserved (fun r : PullRequestRecord => r.github_pr_number)
      (fun pr : GitHubPullRequest => pr.number) (pullRequestPatch now) (pullRequestRowOf now)
      (fun r : PullRequestRecord => r.created_at)
      (fun _ _ => rfl) (fun _ _ => rfl) pcands pstore r hr
  · exact upsertAll_idem (fun r : IncidentRecord => r.incident_io_id)
      (fun inc : Incident => inc.id) (incidentPatch now) (incidentRowOf now)
      (fun r : IncidentRecord => (r.name, r.status, r.severity, r.resolved_at,
        r.impact_started_at, r.duration_seconds, r.time_to_resolve_hours,
        r.is_change_related, r.is_user_impacting, r.fetched_at))
      (fun inc : Incident => (inc.name, inc.status, inc.severity, inc.resolved_at,
        inc.impact_started_at, inc.duration_seconds,
        inc.time_to_resolve_hours, inc.is_change_related,
        inc.is_user_impacting, now))
      (fun _ _ => rfl) (fun _ => rfl) (fun _ _ => rfl) (fun _ => rfl)
      (incidentPatch_self now) (fun _ _ _ => rfl) istore icands
  · exact upsertAll_nodup_keys (fun r : IncidentRecord => r.incident_io_id)
      (fun inc : Incident => inc.id) (incidentPatch now) (incidentRowOf now)
      (fun _ _ => rfl) (fun _ => rfl) icands istore hi
  · intro inc hincmem
    exact upsertAll_ckey_mem (fun r : IncidentRecord => r.incident_io_id)
      (fun inc : Incident => inc.id) (incidentPatch now) (incidentRowOf now)
      (fun _ _ => rfl) (fun _ => rfl) icands istore inc hincmem
  · intro r hr inc hlast
    exact upsertAll_mut_last (fun r : IncidentRecord => r.incident_io_id)
      (fun inc : Incident => inc.id) (incidentPatch now) (incidentRowOf now)
      (fun r : IncidentRecord => (r.name, r.status, r.severity, r.resolved_at,
        r.impact_started_at, r.duration_seconds, r.time_to_resolve_hours,
        r.is_change_related, r.is_user_impacting, r.fetched_at))
      (fun inc : Incident => (inc.name, inc.status, inc.severity, inc.resolved_at,
        inc.impact_started_at, inc.duration_seconds,
        inc.time_to_resolve_hours, inc.is_change_related,
        inc.is_user_impacting, now))
      (fun _ _ => rfl) (fun _ => rfl) (fun _ _ => rfl) (fun _ => rfl)
      icands istore r hr inc hlast
  · intro r hr
    exact upsertAll_idf_preserved (fun r : IncidentRecord => r.incident_io_id)
      (fun inc : Incident => inc.id) (incidentPatch now) (incidentRowOf now)
      (fun r : IncidentRecord => r.created_at)
      (fun _ _ => rfl) (fun _ _ => rfl) icands istore r hr

/-- Witness for C3: a one-row deployment table, re-upserting the same
changed candidate twice equals once. -/
theorem C3_upsert_idempotent_witness :
    ((([⟨7, "sha0", "main", "production", "pending", 50, 10⟩]
        : List DeploymentRecord).map (fun r => r.github_deployment_id)).Nodup ∧
      (([] : List PullRequestRecord).map (fun r => r.github_pr_number)).Nodup ∧
      (([] : List IncidentRecord).map (fun r => r.incident_io_id)).Nodup) ∧
    upsert_deployments 99
        (upsert_deployments 99
          [⟨7, "sha0", "main", "production", "pending", 50, 10⟩]
          [⟨7, "sha0", "main", "production", 50, "success"⟩])
        [⟨7, "sha0", "main", "production", 50, "success"⟩]
      = upsert_deployments 99
          [⟨7, "sha0", "main", "production", "pending", 50, 10⟩]
          [⟨7, "sha0", "main", "production", 50, "success"⟩] :=
  ⟨⟨by decide, by decide, by decide⟩,
    (C3_upsert_idempotent 99
      [⟨7, "sha0", "main", "production", "pending", 50, 10⟩]
      [⟨7, "sha0", "main", "production", 50, "success"⟩]
      [] [] [] [] (by decide) (by decide) (by decide)).1.1⟩

/-! ### Source-fetch enrichment lemmas (`clients.py`) -/

theorem keptPullRequests_cons_none (period : MetricsPeriod)
    (num : Nat) (ti : String) (cr : Int) (rest : List RawPullRequest) :
    keptPullRequests period (⟨num, ti, cr, none⟩ :: rest)
      = keptPullRequests period rest := by
  unfold keptPullRequests
  rw [List.filter_cons]
  simp

theorem keptPullRequests_cons_out (period : MetricsPeriod)
    (num : Nat) (ti : String) (cr merged : Int) (rest : List RawPullRequest)
    (hrange : merged < period.start_date ∨ merged > period.end_date) :
    keptPullRequests period (⟨num, ti, cr, some merged⟩ :: rest)
      = keptPullRequests period rest := by
  unfold keptPullRequests
  rw [List.filter_cons]
  simp [hrange]

theorem keptPullRequests_cons_in (period : MetricsPeriod)
    (num : Nat) (ti : String) (cr merged : Int) (rest : List RawPullRequest)
    (hrange : ¬(merged < period.start_date ∨ merged > period.end_date)) :
    keptPullRequests period (⟨num, ti, cr, some merged⟩ :: rest)
      = ⟨num, ti, cr, some merged⟩ :: keptPullRequests period rest := by
  unfold keptPullRequests
  rw [List.filter_cons]
  simp [hrange]

theorem processPullRequestsPage_char (period : MetricsPeriod)
    (cl : Nat → Except String (Option Int)) (items : List RawPullRequest) :
    processPullRequestsPage period cl items
      = (keptPullRequests period items).map (fun pr =>
          ⟨pr.number, pr.title, pr.created_at, pr.merged_at,
            match cl pr.number with
            | .ok v => v
            | .error _ => none⟩) := by
  induction items with
  | nil => rfl
  | cons pr rest ih =>
    obtain ⟨num, ti, cr, ma⟩ := pr
    cases ma with
    | none =>
      rw [keptPullRequests_cons_none]
      exact ih
    | some merged =>
      by_cases hrange : merged < period.start_date ∨ merged > period.end_date
      · rw [keptPullRequests_cons_out period num ti cr merged rest hrange]
        show (if merged < period.start_date ∨ merged > period.end_date
            then processPullRequestsPage period cl rest
            else ⟨num, ti, cr, some merged,
                match cl num with
                | .ok v => v
                | .error _ => none⟩ :: processPullRequestsPage period cl rest)
          = _
        rw [if_pos hrange]
        exact ih
      · rw [keptPullRequests_cons_in period num ti cr merged rest hrange]
        show (if merged < period.start_date ∨ merged > period.end_date
            then processPullRequestsPage period cl rest
            else ⟨num, ti, cr, some merged,
                match cl num with
                | .ok v => v
                | .error _ => none⟩ :: processPullRequestsPage period cl rest)
          = _
        rw [if_neg hrange, ih]
        rfl

theorem processDeploymentsPage_abort (period : MetricsPeriod)
    (sl : Nat → Except String (List String)) (d : RawDeployment)
    (rest : List RawDeployment) (e : String)
    (h1 : ¬d.created_at < period.start_date)
    (h2 : ¬d.created_at > period.end_date)
    (hsl : sl d.id = .error e) :
    processDeploymentsPage period sl (d :: rest) = .error e := by
  unfold processDeploymentsPage
  rw [if_neg h1, if_neg h2, hsl]

theorem processDeploymentsPage_ok (period : MetricsPeriod)
    (sl : Nat → Except String (List String)) :
    ∀ items : List RawDeployment, (∀ d ∈ items, (sl d.id).isOk = true) →
      (processDeploymentsPage period sl items).isOk = true := by
  intro items
  induction items with
  | nil => intro _; rfl
  | cons d rest ih =>
    intro h
    unfold processDeploymentsPage
    split_ifs with h1 h2
    · rfl
    · exact ih (fun d' hd' => h d' (List.mem_cons_of_mem _ hd'))
    · cases hsl : sl d.id with
      | error e =>
        have hok := h d (List.mem_cons_self _ _)
        rw [hsl] at hok
        simp [Except.isOk, Except.toBool] at hok
      | ok statuses =>
        cases hrec : processDeploymentsPage period sl rest with
        | error e2 =>
          have hok := ih (fun d' hd' => h d' (List.mem_cons_of_mem _ hd'))
          rw [hrec] at hok
          simp [Except.isOk, Except.toBool] at hok
        | ok deps => rfl

theorem processDeploymentsPage_pending (period : MetricsPeriod)
    (sl : Nat → Except String (List String)) (d : RawDeployment)
    (h1 : ¬d.created_at < period.start_date)
    (h2 : ¬d.created_at > period.end_date)
    (hsl : sl d.id = .ok []) :
    processDeploymentsPage period sl [d]
      = .ok [⟨d.id, d.sha, d.ref, d.environment, d.created_at, "pending"⟩] := by
  unfold processDeploymentsPage
  rw [if_neg h1, if_neg h2, hsl]
  rfl

/-- C2 counterexample: in `get_deployments`, a failing per-item status
lookup on the first in-period deployment aborts the whole repository batch
(the call returns the error) instead of degrading that item to `"pending"`
and returning the remaining item. -/
theorem C2_counterexample :
    processDeploymentsPage ⟨"weekly", 0, 604799⟩
        (fun i => if i = 1 then .error "boom" else .ok ["success"])
        [⟨1, "s1", "main", "production", 100⟩,
         ⟨2, "s2", "main", "production", 200⟩]
      = .error "boom" := by
  decide

/-- C2 (amended): the PR first-commit lookup is per-item — a failure
degrades only that PR's `first_commit_at` to `none` and every kept item is
still returned; but the deployment status lookup is not guarded — its
failure on an in-period item propagates and aborts that repository's whole
batch, and the `"pending"` default applies only to a successful lookup
returning no statuses. -/
theorem C2_enrichment_degradation (period : MetricsPeriod)
    (cl : Nat → Except String (Option Int))
    (sl : Nat → Except String (List String)) :
    (∀ items : List RawPullRequest,
      processPullRequestsPage period cl items
        = (keptPullRequests period items).map (fun pr =>
            ⟨pr.number, pr.title, pr.created_at, pr.merged_at,
              match cl pr.number with
              | .ok v => v
              | .error _ => none⟩)) ∧
    (∀ (d : RawDeployment) (rest : List RawDeployment) (e : String),
      ¬d.created_at < period.start_date → ¬d.created_at > period.end_date →
      sl d.id = .error e →
      processDeploymentsPage period sl (d :: rest) = .error e) ∧
    (∀ items : List RawDeployment, (∀ d ∈ items, (sl d.id).isOk = true) →
      (processDeploymentsPage period sl items).isOk = true) ∧
    (∀ d : RawDeployment,
      ¬d.created_at < period.start_date → ¬d.created_at > period.end_date →
      sl d.id = .ok [] →
      processDeploymentsPage period sl [d]
        = .ok [⟨d.id, d.sha, d.ref, d.environment, d.created_at, "pending"⟩]) := by
  refine ⟨?_, ?_, ?_, ?_⟩
  · exact processPullRequestsPage_char period cl
  · exact fun d rest e h1 h2 hsl =>
      processDeploymentsPage_abort period sl d rest e h1 h2 hsl
  · exact processDeploymentsPage_ok period sl
  · exact fun d h1 h2 hsl =>
      processDeploymentsPage_pending period sl d h1 h2 hsl

/-- Witness for C2 (amended) at a concrete failing status lookup. -/
theorem C2_enrichment_degradation_witness :
    processDeploymentsPage ⟨"weekly", 0, 604799⟩
        (fun i => if i = 1 then .error "halt" else .ok ["success"])
        [⟨1, "s1", "main", "production", 100⟩]
      = .error "halt" :=
  (C2_enrichment_degradation ⟨"weekly", 0, 604799⟩ (fun _ => .ok none)
      (fun i => if i = 1 then .error "halt" else .ok ["success"])).2.1
    ⟨1, "s1", "main", "production", 100⟩ [] "halt"
    (by decide) (by decide) (by decide)

/-! ### Backfill orchestration lemmas (`tasks.py` / `backfill.py`) -/

theorem backfillPipelineResults_spec
    (process : MetricsPeriod → Except String BackfillCounts) (total : Nat) :
    ∀ (ps : List MetricsPeriod) (i : Nat),
      ((backfillPipelineResults process total ps i).length = ps.length) ∧
      (∀ j (hj : j < ps.length)
          (hj' : j < (backfillPipelineResults process total ps i).length),
        (backfillPipelineResults process total ps i).get ⟨j, hj'⟩
          = ⟨(ps.get ⟨j, hj⟩).start_date, (ps.get ⟨j, hj⟩).end_date,
              process (ps.get ⟨j, hj⟩), (i + j + 1, total)⟩) := by
  intro ps
  induction ps with
  | nil =>
    intro i
    exact ⟨rfl, fun j hj _ => absurd hj (by simp)⟩
  | cons p rest ih =>
    intro i
    have hcons : backfillPipelineResults process total (p :: rest) i
        = ⟨p.start_date, p.end_date, process p, (i + 1, total)⟩
          :: backfillPipelineResults process total rest (i + 1) := rfl
    constructor
    · rw [hcons]
      simp [(ih (i + 1)).1]
    · intro j hj hj'
      match j with
      | 0 => rfl
      | j + 1 =>
        have hj2 : j < rest.length := by
          simp only [List.length_cons] at hj
          omega
        have hj2' : j < (backfillPipelineResults process total rest (i + 1)).length := by
          rw [(ih (i + 1)).1]
          exact hj2
        have hrec := (ih (i + 1)).2 j hj2 hj2'
        show (backfillPipelineResults process total rest (i + 1)).get ⟨j, _⟩ = _
        rw [hrec]
        simp only [BackfillEntry.mk.injEq, Prod.mk.injEq, List.get_cons_succ]
        refine ⟨trivial, trivial, trivial, by omega, trivial⟩

theorem filter_isOk_split (l : List BackfillEntry) :
    (l.filter (fun r => r.outcome.isOk)).length
      + (l.filter (fun r => !r.outcome.isOk)).length = l.length := by
  induction l with
  | nil => rfl
  | cons a l ih =>
    rw [List.filter_cons, List.filter_cons]
    cases h : a.outcome.isOk <;> simp [h] <;> omega

theorem runBackfillYields_error
    (process : MetricsPeriod → Except String BackfillCounts) (total : Nat) :
    ∀ (ps : List MetricsPeriod) (i : Nat) (j : Nat) (hj : j < ps.length)
      (msg : String),
      process (ps.get ⟨j, hj⟩) = .error msg →
      (∀ k (hk : k < j), (process (ps.get ⟨k, lt_trans hk hj⟩)).isOk = true) →
      runBackfillYields process total ps i = .error msg := by
  intro ps
  induction ps with
  | nil => intro i j hj; simp at hj
  | cons p rest ih =>
    intro i j hj msg herr hprev
    match j with
    | 0 =>
      have herr0 : process p = Except.error msg := herr
      unfold runBackfillYields
      rw [herr0]
    | j + 1 =>
      have h0 : (process p).isOk = true := hprev 0 (Nat.succ_pos j)
      cases hp : process p with
      | error e =>
        rw [hp] at h0
        simp [Except.isOk, Except.toBool] at h0
      | ok counts =>
        have hj2 : j < rest.length := by
          simp only [List.length_cons] at hj
          omega
        have hrec := ih (i + 1) j hj2 msg herr
          (fun k hk => hprev (k + 1) (by omega))
        unfold runBackfillYields
        rw [hp, hrec]

/-- C1 counterexample: `run_backfill` in `backfill.py` has no `try/except`
around `backfill_period`, so over a 2-period range whose first period's
processing raises, the generator propagates the error instead of completing
with 2 per-period results. -/
theorem C1_counterexample :
    run_backfill 0 950400 "weekly"
        (fun p => if p.start_date = -259200 then .error "boom"
          else .ok ⟨0, 0, 0, 0⟩)
      = .error "boom" := by
  decide

/-- C1 (amended): `run_backfill_pipeline` in `tasks.py` completes for every
process function, produces one result per generated period in period order
with the error recorded against the failing period's entry while every
period is still attempted, and its success/failure counts partition the
periods; `run_backfill` in `backfill.py`, by contrast, propagates the first
period error it encounters. -/
theorem C1_backfill_isolation (s e : Int) (pt : String)
    (process : MetricsPeriod → Except String BackfillCounts) :
    ((run_backfill_pipeline s e pt process).results.length
        = (generate_periods s e pt).length) ∧
    ((run_backfill_pipeline s e pt process).total_periods
        = (generate_periods s e pt).length) ∧
    (∀ j (hj : j < (generate_periods s e pt).length)
        (hj' : j < (run_backfill_pipeline s e pt process).results.length),
      (run_backfill_pipeline s e pt process).results.get ⟨j, hj'⟩
        = ⟨((generate_periods s e pt).get ⟨j, hj⟩).start_date,
            ((generate_periods s e pt).get ⟨j, hj⟩).end_date,
            process ((generate_periods s e pt).get ⟨j, hj⟩),
            (j + 1, (generate_periods s e pt).length)⟩) ∧
    ((run_backfill_pipeline s e pt process).successful
        + (run_backfill_pipeline s e pt process).failed
        = (generate_periods s e pt).length) ∧
    (∀ j (hj : j < (generate_periods s e pt).length) (msg : String),
      process ((generate_periods s e pt).get ⟨j, hj⟩) = .error msg →
      (∀ k (hk : k < j),
        (process ((generate_periods s e pt).get
          ⟨k, lt_trans hk hj⟩)).isOk = true) →
      run_backfill s e pt process = .error msg) := by
  have hspec := backfillPipelineResults_spec process
    (generate_periods s e pt).length (generate_periods s e pt) 0
  refine ⟨hspec.1, rfl, ?_, ?_, ?_⟩
  · intro j hj hj'
    show (backfillPipelineResults process (generate_periods s e pt).length
        (generate_periods s e pt) 0).get ⟨j, hj'⟩ = _
    rw [hspec.2 j hj hj']
    simp only [BackfillEntry.mk.injEq, Prod.mk.injEq]
    exact ⟨trivial, trivial, trivial, by omega, trivial⟩
  · show (List.filter (fun r => r.outcome.isOk)
        (backfillPipelineResults process (generate_periods s e pt).length
          (generate_periods s e pt) 0)).length
      + (List.filter (fun r => !r.outcome.isOk)
          (backfillPipelineResults process (generate_periods s e pt).length
            (generate_periods s e pt) 0)).length
      = (generate_periods s e pt).length
    exact (filter_isOk_split _).trans hspec.1
  · intro j hj msg herr hprev
    exact runBackfillYields_error process (generate_periods s e pt).length
      (generate_periods s e pt) 0 j hj msg herr hprev

/-- Witness for C1 at a concrete 2-period weekly range whose first period
fails. -/
theorem C1_backfill_isolation_witness :
    run_backfill 0 950400 "weekly"
        (fun p => if p.start_date = -259200 then .error "halted"
          else .ok ⟨0, 0, 0, 0⟩)
      = .error "halted" :=
  (C1_backfill_isolation 0 950400 "weekly"
      (fun p => if p.start_date = -259200 then .error "halted"
        else .ok ⟨0, 0, 0, 0⟩)).2.2.2.2
    0 (by decide) "halted" (by decide)
    (fun k hk => absurd hk (Nat.not_lt_zero k))

end MetricsDashboard
